import Mathlib

/-!
Verification of the hash-tree-root core of `dynamic-ssz` (`treeroot.go`).

The development shallowly embeds the three mutually recursive functions
`buildRootFromType`, `buildRootFromStruct` and `buildRootFromSlice` of
`src/treeroot.go`, together with models of the external collaborators that
the source file uses (the fastssz hash-accumulation buffer, the fastssz
compatibility oracle, the field metadata resolvers and `calculateLimit`,
none of which are part of `src/`; they are modelled from the contracts in
the specification, section 6).  Go's `reflect` types and values are
embedded as inductive data, Go runtime panics of reflection operations are
embedded as a dedicated error constructor, and recursion is made total by
an explicit fuel parameter (a call that runs out of fuel returns a fuel
error; all source-reachable executions succeed for sufficiently large
fuel).
-/

namespace DynSszProof

/-! ## Byte-level primitives -/

/-- Little-endian byte encoding of `v` on `n` bytes (bytes are `Nat`s,
reduced mod `2^8` explicitly). -/
def toLE (n : Nat) (v : Nat) : List Nat :=
  (List.range n).map (fun i => v / 2 ^ (8 * i) % 2 ^ 8)

/-- Modelled from the spec: the hash-combination primitive of the
hash-tree buffer is an external service (spec section 1 and 6); it is
modelled as a concrete 32-byte digest stand-in, a pure function of the
combined data.  A `tag` separates the different combination operations. -/
def digest32 (tag : Nat) (data : List Nat) : List Nat :=
  (List.range 32).map
    (fun i => data.foldl (fun a b => (a * 31 + b + 1) % 2 ^ 8) ((tag + i) % 2 ^ 8))

/-! ## The hash-tree buffer (fastssz `Hasher`)

Modelled from the spec: the buffer is an append-only byte sequence with a
movable index (spec section 3 and 6); the operations below follow the
fastssz `Hasher` contract the source calls into: scalar puts append one
zero-padded chunk, `append` packs densely, `fillUpTo32` pads the tail to a
32-byte boundary, and the merkleize operations replace everything from a
captured index by a single 32-byte root. -/

structure Hasher where
  buf : List Nat
deriving DecidableEq, Repr

/-- `hh.Index()`: current byte length of the buffer. -/
def Hasher.index (h : Hasher) : Nat := h.buf.length

/-- `hh.Append(b)`: dense append, no padding. -/
def Hasher.append (h : Hasher) (bs : List Nat) : Hasher := ⟨h.buf ++ bs⟩

/-- `hh.FillUpTo32()`: pad the buffer with zero bytes to a 32-byte boundary. -/
def Hasher.fillUpTo32 (h : Hasher) : Hasher :=
  ⟨h.buf ++ List.replicate ((32 - h.buf.length % 32) % 32) 0⟩

/-- `hh.AppendBytes32(b)`: append and pad to a 32-byte boundary. -/
def Hasher.appendBytes32 (h : Hasher) (bs : List Nat) : Hasher :=
  (h.append bs).fillUpTo32

/-- `hh.Merkleize(indx)`: combine every chunk at or after `indx` (after
padding the tail) into a single 32-byte root placed at `indx`. -/
def Hasher.merkleize (h : Hasher) (indx : Nat) : Hasher :=
  let h' := h.fillUpTo32
  ⟨h'.buf.take indx ++ digest32 1 (h'.buf.drop indx)⟩

/-- `hh.MerkleizeWithMixin(indx, num, limit)`: like `merkleize` but the
root also mixes in the element count `num` and the chunk capacity
`limit`. -/
def Hasher.merkleizeWithMixin (h : Hasher) (indx num limit : Nat) : Hasher :=
  let h' := h.fillUpTo32
  ⟨h'.buf.take indx ++ digest32 2 (h'.buf.drop indx ++ toLE 8 num ++ toLE 8 limit)⟩

/-- `hh.PutBytes(b)`: append `b` as zero-padded chunks; when `b` spans
more than one chunk the chunks are combined into a single root (one-chunk
contract of the buffer, spec section 3). -/
def Hasher.putBytes (h : Hasher) (bs : List Nat) : Hasher :=
  if bs.length ≤ 32 then h.appendBytes32 bs
  else (h.appendBytes32 bs).merkleize h.index

/-- `hh.AppendUint64(v)`: dense append of the 8-byte little-endian value. -/
def Hasher.appendUint64 (h : Hasher) (v : Nat) : Hasher :=
  h.append (toLE 8 (v % 2 ^ 64))

/-- `hh.PutUint64(v)`: one chunk holding the 8-byte little-endian value. -/
def Hasher.putUint64 (h : Hasher) (v : Nat) : Hasher :=
  (h.append (toLE 8 (v % 2 ^ 64))).fillUpTo32

/-- `hh.PutUint32(v)`. -/
def Hasher.putUint32 (h : Hasher) (v : Nat) : Hasher :=
  (h.append (toLE 4 (v % 2 ^ 32))).fillUpTo32

/-- `hh.PutUint16(v)`. -/
def Hasher.putUint16 (h : Hasher) (v : Nat) : Hasher :=
  (h.append (toLE 2 (v % 2 ^ 16))).fillUpTo32

/-- `hh.PutUint8(v)`. -/
def Hasher.putUint8 (h : Hasher) (v : Nat) : Hasher :=
  (h.append (toLE 1 (v % 2 ^ 8))).fillUpTo32

/-- `hh.PutBool(b)`. -/
def Hasher.putBool (h : Hasher) (b : Bool) : Hasher :=
  (h.append [if b then 1 else 0]).fillUpTo32

/-- `hh.PutBitlist(bytes, maxSize)`: the bitlist rule appends a single
chunk, a padded-and-length-mixed root of the packed bits bounded by
`maxSize` bits (spec section 4.1). -/
def Hasher.putBitlist (h : Hasher) (bs : List Nat) (maxSize : Nat) : Hasher :=
  ⟨h.buf ++ digest32 3 (bs ++ toLE 8 maxSize)⟩

/-! ## Go types, fields and values (`reflect` embedding) -/

/-- Substring check over the character lists of two strings; embeds Go's
`strings.Contains`. -/
def charsPrefix : List Char → List Char → Bool
  | [], _ => true
  | _ :: _, [] => false
  | c :: cs, d :: ds => c == d && charsPrefix cs ds

/-- Auxiliary to `stringContains`: does `l` have a run starting at some
position that begins with `sub`? -/
def charsContains (sub : List Char) : List Char → Bool
  | [] => charsPrefix sub []
  | c :: cs => charsPrefix sub (c :: cs) || charsContains sub cs

/-- `strings.Contains s sub`. -/
def stringContains (s sub : String) : Bool := charsContains sub.data s.data

mutual
/-- A Go type as seen through `reflect`: a kind, the declared type name
(`Type.Name()`, empty for unnamed composite types) and the payload the
source consults (element type, declared fields).  Kinds that
`treeroot.go` has no hashing rule for are collapsed into `float64T` (a
concrete example) and `unsupported`. -/
inductive GoType : Type where
  | ptr (elem : GoType)
  | strct (name : String) (fields : List GoField)
  | array (name : String) (length : Nat) (elem : GoType)
  | slice (name : String) (elem : GoType)
  | boolT (name : String)
  | uint8T (name : String)
  | uint16T (name : String)
  | uint32T (name : String)
  | uint64T (name : String)
  | float64T (name : String)
  | unsupported (name : String) (kindName : String)

/-- A struct field: `reflect.StructField` restricted to what the source
uses (the field is also handed whole to the external tag resolvers). -/
inductive GoField : Type where
  | mk (name : String) (type : GoType) (tag : String)
end

/-- `Type.Name()`. -/
def GoType.name : GoType → String
  | .ptr _ => ""
  | .strct n _ => n
  | .array n _ _ => n
  | .slice n _ => n
  | .boolT n => n
  | .uint8T n => n
  | .uint16T n => n
  | .uint32T n => n
  | .uint64T n => n
  | .float64T n => n
  | .unsupported n _ => n

/-- `Type.Elem()` for the kinds that have an element type. -/
def GoType.elemType? : GoType → Option GoType
  | .ptr e => some e
  | .array _ _ e => some e
  | .slice _ e => some e
  | _ => none

/-- Is the kind `reflect.Ptr`? -/
def GoType.isPtr : GoType → Bool
  | .ptr _ => true
  | _ => false

/-- `itemType == byteType`: exact type identity with `reflect.TypeOf(byte(0))`,
i.e. the unnamed-beyond-`uint8` byte type itself; a user-defined type of
kind `uint8` is not equal to it. -/
def GoType.isByteType : GoType → Bool
  | .uint8T n => n == "uint8"
  | _ => false

/-- The field type of a `GoField`. -/
def GoField.type : GoField → GoType
  | .mk _ t _ => t

/-- The `fieldIsPtr` normalization of `buildRootFromSlice` (treeroot.go
lines 150-153): strip one pointer layer off the element type. -/
def GoType.stripPtr : GoType → GoType
  | .ptr e => e
  | t => t

/-- A Go value as seen through `reflect.Value`.  `invalid` is the zero
`Value` (as produced by `Elem()` on a nil pointer); byte slices and byte
arrays are carried as raw byte strings (`bytesV`), every other sequence as
a list of element values. -/
inductive GoValue : Type where
  | invalid
  | ptrV (pointee : Option GoValue)
  | structV (fields : List GoValue)
  | seqV (elems : List GoValue)
  | bytesV (bs : List Nat)
  | boolV (b : Bool)
  | uintV (n : Nat)

/-- Errors of the embedded functions.  The Go source reports errors as
wrapped strings; reflection operations that Go would abort with a runtime
panic are embedded as `panicked`.  `nilValue` is the error kind the spec
postulates for dereferencing a null pointer; the source never produces
it. -/
inductive Err : Type where
  | compatCheckFailed (inner : String)
  | hashRootFailed (inner : String)
  | unknownType (typeName : String)
  | unsupportedNesting (itemTypeName : String)
  | external (msg : String)
  | panicked (msg : String)
  | nilValue
  | outOfFuel
deriving DecidableEq, Repr

/-- `Value.Elem()`: dereference.  On a nil pointer this yields the zero
`Value` (no error!); on a non-pointer the source only calls it under a
pointer-kind check, so the fallback is the zero `Value` as well. -/
def GoValue.elem : GoValue → GoValue
  | .ptrV (some v) => v
  | _ => .invalid

/-- `Value.Field(i)`. -/
def GoValue.fieldAt (v : GoValue) (i : Nat) : GoValue :=
  match v with
  | .structV fs => fs.getD i .invalid
  | _ => .invalid

/-- `Value.Len()`: length of a sequence value; panics on other values. -/
def GoValue.lenE : GoValue → Except Err Nat
  | .seqV es => .ok es.length
  | .bytesV bs => .ok bs.length
  | .invalid => .error (.panicked "reflect: call of reflect.Value.Len on zero Value")
  | _ => .error (.panicked "reflect: call of reflect.Value.Len on non-sequence value")

/-- `Value.Index(i)`. -/
def GoValue.indexAt (v : GoValue) (i : Nat) : GoValue :=
  match v with
  | .seqV es => es.getD i .invalid
  | .bytesV bs => .uintV (bs.getD i 0)
  | _ => .invalid

/-- `Value.Bytes()`: the raw bytes of a byte slice/array; panics on any
other value. -/
def GoValue.bytesE : GoValue → Except Err (List Nat)
  | .bytesV bs => .ok bs
  | .invalid => .error (.panicked "reflect: call of reflect.Value.Bytes on zero Value")
  | _ => .error (.panicked "reflect: call of reflect.Value.Bytes on non-byte value")

/-- `Value.Uint()`: panics on non-integer values. -/
def GoValue.uintE : GoValue → Except Err Nat
  | .uintV n => .ok n
  | .invalid => .error (.panicked "reflect: call of reflect.Value.Uint on zero Value")
  | _ => .error (.panicked "reflect: call of reflect.Value.Uint on non-integer value")

/-- `Value.Bool()`: panics on non-boolean values. -/
def GoValue.boolE : GoValue → Except Err Bool
  | .boolV b => .ok b
  | .invalid => .error (.panicked "reflect: call of reflect.Value.Bool on zero Value")
  | _ => .error (.panicked "reflect: call of reflect.Value.Bool on non-boolean value")

/-- The pointer dereferencing prologue shared by `buildRootFromType` and
`buildRootFromStruct` (treeroot.go lines 15-18 and 109-112, 119-123):
if the type's kind is `Ptr`, both type and value are replaced by their
element; note that no nil check is performed. -/
def derefTV (t : GoType) (v : GoValue) : GoType × GoValue :=
  match t with
  | .ptr e => (e, v.elem)
  | _ => (t, v)

/-! ## Hints, verdicts, configuration -/

/-- `sszSizeHint`: carried opaquely by `treeroot.go` (only handed to the
oracle and the recursion). -/
structure SszSizeHint where
  size : Nat
deriving DecidableEq, Repr

/-- `sszMaxSizeHint`: `treeroot.go` reads its `size` field. -/
structure SszMaxSizeHint where
  size : Nat
deriving DecidableEq, Repr

/-- The fastssz compatibility verdict (the three booleans of
`getFastsszHashCompatibility`'s result that `treeroot.go` reads). -/
structure FastsszCompat where
  isHashRoot : Bool
  hasDynamicSpecSizes : Bool
  hasDynamicSpecMax : Bool
deriving DecidableEq, Repr

/-- Modelled from the spec: `calculateLimit` is not part of `src/`; per
the spec (section 4.3) the capacity for densely packed elements is
`ceil(maxElementCount * elementByteSize / 32)`, independent of the actual
element count. -/
def calculateLimit (maxCount _actualCount itemSize : Nat) : Nat :=
  (maxCount * itemSize + 31) / 32

/-- The `DynSsz` instance: the two process-wide switches plus the four
external collaborators `treeroot.go` calls, modelled from the spec
(section 6) as pure function fields.  `hashRootCap` embeds the runtime
capability query `sourceValue.Addr().Interface().(fastsszHashRoot)`
followed by `HashTreeRoot()`: `none` means the type assertion fails (the
value does not expose the capability), `some r` is the invocation's
outcome, a 32-byte root or a failure. -/
structure DynSsz where
  noFastSsz : Bool
  verbose : Bool
  getFastsszHashCompatibility :
    GoType → List SszSizeHint → List SszMaxSizeHint → Except String FastsszCompat
  hashRootCap : GoType → GoValue → Option (Except String { bs : List Nat // bs.length = 32 })
  getSszFieldSize : GoField → Except String (List SszSizeHint)
  getSszMaxSizeTag : GoField → Except String (List SszMaxSizeHint)

/-! ## The embedded source functions -/

/-- Result of a build call: Go mutates the hasher in place and returns an
`error`, so the embedding always returns the final buffer state together
with an optional error (`none` = success). -/
abbrev BRes := Option Err × Hasher

/-- A `for i := 0; i < count; i++` loop threading the hasher and
returning early on the first error, as in the element/field loops of
`treeroot.go`. -/
def runFieldLoop (step : Nat → Hasher → BRes) : Nat → Nat → Hasher → BRes
  | _, 0, hh => (none, hh)
  | i, rem + 1, hh =>
    match step i hh with
    | (some e, hh') => (some e, hh')
    | (none, hh') => runFieldLoop step (i + 1) rem hh'

/-- Intermediate outcome of the element-kind switch of
`buildRootFromSlice`: failure, early return (`return nil` of the fixed
byte-array case), or fall-through to the finalization with the recorded
`itemSize`. -/
inductive SliceStep where
  | failed (e : Err) (hh : Hasher)
  | done (hh : Hasher)
  | cont (hh : Hasher) (itemSize : Nat)

/-- The per-field step of the struct field loop (treeroot.go lines
114-141): fetch the field, strip a pointer layer, resolve the size/max
hints and recurse (`rec` is the recursive call to `buildRootFromType`). -/
def structFieldStep (d : DynSsz)
    (rec : GoType → GoValue → Hasher → List SszSizeHint → List SszMaxSizeHint → BRes)
    (fields : List GoField) (sourceValue : GoValue) (i : Nat) (hh : Hasher) : BRes :=
  let field := fields.getD i (.mk "" (.unsupported "" "") "")
  let ftv := derefTV field.type (sourceValue.fieldAt i)
  match d.getSszFieldSize field with
  | .error e => (some (.external e), hh)
  | .ok sizeHints =>
    match d.getSszMaxSizeTag field with
    | .error e => (some (.external e), hh)
    | .ok maxSizeHints => rec ftv.1 ftv.2 hh sizeHints maxSizeHints

/-- Per-element step of the struct-element loop of `buildRootFromSlice`
(treeroot.go lines 160-171); `rec2` is the recursive call to
`buildRootFromStruct` at the element type. -/
def structElemStep (rec2 : GoValue → Hasher → BRes) (sourceValue : GoValue)
    (fieldIsPtr : Bool) (i : Nat) (hh : Hasher) : BRes :=
  let fieldValue := sourceValue.indexAt i
  let fieldValue := if fieldIsPtr then fieldValue.elem else fieldValue
  rec2 fieldValue hh

/-- Per-element step of the nested byte-sequence loop of
`buildRootFromSlice` (treeroot.go lines 175-194). -/
def byteSeqElemStep (sourceValue : GoValue) (fieldIsPtr : Bool)
    (maxSizeHints : List SszMaxSizeHint) (i : Nat) (hh : Hasher) : BRes :=
  let sliceSubIndex := hh.index
  let fieldValue := sourceValue.indexAt i
  let fieldValue := if fieldIsPtr then fieldValue.elem else fieldValue
  match fieldValue.bytesE with
  | .error e => (some e, hh)
  | .ok fieldBytes =>
    let byteLen := fieldBytes.length
    match maxSizeHints with
    | _ :: mh1 :: _ =>
      (none, (hh.appendBytes32 fieldBytes).merkleizeWithMixin sliceSubIndex byteLen
        ((mh1.size + 31) / 32))
    | _ => (none, hh.putBytes fieldBytes)

/-- Per-element step of the uint64 packing loop of `buildRootFromSlice`
(treeroot.go lines 208-215). -/
def uint64ElemStep (sourceValue : GoValue) (fieldIsPtr : Bool) (i : Nat) (hh : Hasher) : BRes :=
  let fieldValue := sourceValue.indexAt i
  let fieldValue := if fieldIsPtr then fieldValue.elem else fieldValue
  match fieldValue.uintE with
  | .error e => (some e, hh)
  | .ok n => (none, hh.appendUint64 n)

mutual
/-- `treeroot.go` lines 12-104, `(d *DynSsz).buildRootFromType`.  The
`idt` parameter and the `Verbose` prints are omitted (diagnostics only);
`hashIndex` is captured there only for diagnostics. -/
def buildRootFromType (d : DynSsz) (fuel : Nat) (sourceType : GoType) (sourceValue : GoValue)
    (hh : Hasher) (sizeHints : List SszSizeHint) (maxSizeHints : List SszMaxSizeHint) : BRes :=
  match fuel with
  | 0 => (some .outOfFuel, hh)
  | fuel + 1 =>
    let tv := derefTV sourceType sourceValue
    let sourceType := tv.1
    let sourceValue := tv.2
    match d.getFastsszHashCompatibility sourceType sizeHints maxSizeHints with
    | .error e => (some (.compatCheckFailed e), hh)
    | .ok fastsszCompat =>
      let useFastSsz0 := !d.noFastSsz && fastsszCompat.isHashRoot &&
        !fastsszCompat.hasDynamicSpecSizes && !fastsszCompat.hasDynamicSpecMax
      -- hack for uint256.Int (lines 29-32)
      let useFastSsz :=
        if !useFastSsz0 && fastsszCompat.isHashRoot && !fastsszCompat.hasDynamicSpecSizes &&
            !fastsszCompat.hasDynamicSpecMax && sourceType.name == "Int" then
          true
        else useFastSsz0
      match (if useFastSsz then some (d.hashRootCap sourceType sourceValue) else none) with
      | some (some (.ok hashBytes)) => (none, hh.putBytes hashBytes.val)
      | some (some (.error e)) => (some (.hashRootFailed e), hh)
      | _ =>
        -- capability absent despite the verdict (demotion) or fast path off
        if stringContains sourceType.name "Bitlist" then
          -- hack for bitlists (lines 52-62)
          match sourceValue.bytesE with
          | .error e => (some e, hh)
          | .ok bytes =>
            let maxSize :=
              match maxSizeHints with
              | mh :: _ => mh.size
              | [] => bytes.length * 8
            (none, hh.putBitlist bytes maxSize)
        else
          match sourceType with
          | .strct _ _ => buildRootFromStruct d fuel sourceType sourceValue hh
          | .array _ _ _ => buildRootFromSlice d fuel sourceType sourceValue hh maxSizeHints true
          | .slice _ _ => buildRootFromSlice d fuel sourceType sourceValue hh maxSizeHints false
          | .boolT _ =>
            match sourceValue.boolE with
            | .error e => (some e, hh)
            | .ok b => (none, hh.putBool b)
          | .uint8T _ =>
            match sourceValue.uintE with
            | .error e => (some e, hh)
            | .ok n => (none, hh.putUint8 (n % 2 ^ 8))
          | .uint16T _ =>
            match sourceValue.uintE with
            | .error e => (some e, hh)
            | .ok n => (none, hh.putUint16 (n % 2 ^ 16))
          | .uint32T _ =>
            match sourceValue.uintE with
            | .error e => (some e, hh)
            | .ok n => (none, hh.putUint32 (n % 2 ^ 32))
          | .uint64T _ =>
            match sourceValue.uintE with
            | .error e => (some e, hh)
            | .ok n => (none, hh.putUint64 (n % 2 ^ 64))
          | _ => (some (.unknownType sourceType.name), hh)

/-- `treeroot.go` lines 106-146, `(d *DynSsz).buildRootFromStruct`. -/
def buildRootFromStruct (d : DynSsz) (fuel : Nat) (sourceType : GoType) (sourceValue : GoValue)
    (hh : Hasher) : BRes :=
  match fuel with
  | 0 => (some .outOfFuel, hh)
  | fuel + 1 =>
    let hashIndex := hh.index
    let tv := derefTV sourceType sourceValue
    let sourceType := tv.1
    let sourceValue := tv.2
    match sourceType with
    | .strct _ fields =>
      match runFieldLoop
          (structFieldStep d (fun t v hh sh mh => buildRootFromType d fuel t v hh sh mh)
            fields sourceValue)
          0 fields.length hh with
      | (some e, hh') => (some e, hh')
      | (none, hh') => (none, hh'.merkleize hashIndex)
    | _ => (some (.panicked "reflect: call of reflect.Type.NumField on non-struct type"), hh)

/-- `treeroot.go` lines 148-232, `(d *DynSsz).buildRootFromSlice`. -/
def buildRootFromSlice (d : DynSsz) (fuel : Nat) (sourceType : GoType) (sourceValue : GoValue)
    (hh : Hasher) (maxSizeHints : List SszMaxSizeHint) (isArray : Bool) : BRes :=
  match fuel with
  | 0 => (some .outOfFuel, hh)
  | fuel + 1 =>
    match sourceType.elemType? with
    | none => (some (.panicked "reflect: call of reflect.Type.Elem on non-container type"), hh)
    | some fieldType0 =>
      let fieldIsPtr := fieldType0.isPtr
      let fieldType := fieldType0.stripPtr
      let subIndex := hh.index
      match sourceValue.lenE with
      | .error e => (some e, hh)
      | .ok sliceLen =>
        let step : SliceStep :=
          match fieldType with
          | .strct _ _ =>
            match runFieldLoop
                (structElemStep (fun v hh => buildRootFromStruct d fuel fieldType v hh)
                  sourceValue fieldIsPtr)
                0 sliceLen hh with
            | (some e, hh') => .failed e hh'
            | (none, hh') => .cont hh' 0
          | .array _ _ itemType | .slice _ itemType =>
            if itemType.isByteType then
              match runFieldLoop (byteSeqElemStep sourceValue fieldIsPtr maxSizeHints)
                  0 sliceLen hh with
              | (some e, hh') => .failed e hh'
              | (none, hh') => .cont hh' 0
            else
              .failed (.unsupportedNesting itemType.name) hh
          | .uint8T _ =>
            match sourceValue.bytesE with
            | .error e => .failed e hh
            | .ok bs =>
              if isArray then .done (hh.putBytes bs)
              else .cont ((hh.append bs).fillUpTo32) 1
          | .uint64T _ =>
            match runFieldLoop (uint64ElemStep sourceValue fieldIsPtr) 0 sliceLen hh with
            | (some e, hh') => .failed e hh'
            | (none, hh') => .cont hh' 8
          | _ => .cont hh 0
        match step with
        | .failed e hh' => (some e, hh')
        | .done hh' => (none, hh')
        | .cont hh' itemSize =>
          match maxSizeHints with
          | mh0 :: _ =>
            let limit :=
              if itemSize > 0 then calculateLimit mh0.size sliceLen itemSize else mh0.size
            (none, hh'.merkleizeWithMixin subIndex sliceLen limit)
          | [] => (none, hh'.merkleize subIndex)
end

/-! ## Concrete instances used by witnesses and counterexamples -/

/-- A compatibility oracle that reports no precompiled routine for any
type (forcing the generic path). -/
def compatNone : GoType → List SszSizeHint → List SszMaxSizeHint → Except String FastsszCompat :=
  fun _ _ _ => .ok ⟨false, false, false⟩

/-- A compatibility oracle that reports a clean precompiled routine for
every type (no overridden sizes). -/
def compatYes : GoType → List SszSizeHint → List SszMaxSizeHint → Except String FastsszCompat :=
  fun _ _ _ => .ok ⟨true, false, false⟩

/-- A concrete 32-byte root for the modelled precompiled capability. -/
def zeroRoot32 : { bs : List Nat // bs.length = 32 } :=
  ⟨List.replicate 32 0, by simp⟩

/-- A `DynSsz` instance on which every type takes the generic path. -/
def dGeneric : DynSsz :=
  ⟨false, false, compatNone, fun _ _ => none, fun _ => .ok [], fun _ => .ok []⟩

/-- A `DynSsz` instance whose fast path is globally disabled while every
value exposes the precompiled capability and the oracle approves it. -/
def dFastDisabled : DynSsz :=
  ⟨true, false, compatYes, fun _ _ => some (.ok zeroRoot32), fun _ => .ok [], fun _ => .ok []⟩

/-- A `DynSsz` instance where every value exposes the precompiled
capability but the oracle reports no precompiled routine. -/
def dCapNoVerdict : DynSsz :=
  ⟨false, false, compatNone, fun _ _ => some (.ok zeroRoot32), fun _ => .ok [], fun _ => .ok []⟩

/-- The empty hash buffer. -/
def hasher0 : Hasher := ⟨[]⟩

/-- A Go kind for which the generic-path kind switch of
`buildRootFromType` has a hashing rule (treeroot.go lines 65-95): struct,
array, slice, bool or an unsigned integer of width 8/16/32/64.  Pointer
(after the one dereference), floating point and the other kinds have no
rule and fall to the `default` branch. -/
def kindHasHashRule : GoType → Bool
  | .strct _ _ => true
  | .array _ _ _ => true
  | .slice _ _ => true
  | .boolT _ => true
  | .uint8T _ => true
  | .uint16T _ => true
  | .uint32T _ => true
  | .uint64T _ => true
  | .ptr _ => false
  | .float64T _ => false
  | .unsupported _ _ => false

/-- The dense little-endian packing of a uint64 sequence (spec section
4.3: four 8-byte little-endian values per 32-byte chunk). -/
def packUint64s : List Nat → List Nat
  | [] => []
  | n :: ns => toLE 8 (n % 2 ^ 64) ++ packUint64s ns

/-- The per-element treatment claim C7 describes for nested byte-sequence
elements: with a second max-size-hint dimension, pack the element's bytes
into whole chunks and mix in its byte length with chunk capacity
`ceil(maxSizeHints[1] / 32)`; without one, write the bytes as a packed
chunk run with no mixin. -/
def nestedByteOne (mh : List SszMaxSizeHint) (bs : List Nat) (hh : Hasher) : Hasher :=
  match mh with
  | _ :: mh1 :: _ =>
    (hh.appendBytes32 bs).merkleizeWithMixin hh.index bs.length ((mh1.size + 31) / 32)
  | _ => hh.putBytes bs

/-- The whole-sequence version of `nestedByteOne`, element by element. -/
def nestedByteFold (mh : List SszMaxSizeHint) (bss : List (List Nat)) (hh : Hasher) : Hasher :=
  match bss with
  | [] => hh
  | bs :: rest => nestedByteFold mh rest (nestedByteOne mh bs hh)

/-- The merkleization bound the bitlist rule uses (treeroot.go lines
54-60): `maxSizeHints[0]` when a max-size hint is present, else 8 bits
per byte of the value. -/
def bitlistMaxBits (mh : List SszMaxSizeHint) (bs : List Nat) : Nat :=
  match mh with
  | mh0 :: _ => mh0.size
  | [] => bs.length * 8

/-- The generic-path outcome for a bitlist-named type: the value is read
as a byte slice and hashed by the bitlist rule; reading any other value
panics, and the panic propagates as-is. -/
def bitlistOutcome (v : GoValue) (hh : Hasher) (mh : List SszMaxSizeHint) : BRes :=
  match v.bytesE with
  | .error e => (some e, hh)
  | .ok bs => (none, hh.putBitlist bs (bitlistMaxBits mh bs))

/-- The finalization of `buildRootFromSlice` for composite (not densely
packed, `itemSize = 0`) elements: a length mixin whose chunk capacity is
the first max-size hint unchanged when one is present, a plain merkleize
otherwise. -/
def compositeFinalize (mh : List SszMaxSizeHint) (subIndex num : Nat) (hh : Hasher) : Hasher :=
  match mh with
  | mh0 :: _ => hh.merkleizeWithMixin subIndex num mh0.size
  | [] => hh.merkleize subIndex

/-! ## Buffer-arithmetic lemmas for the hasher model -/

theorem digest32_length (tag : Nat) (data : List Nat) :
    (digest32 tag data).length = 32 := by
  simp [digest32]

theorem toLE_length (n v : Nat) : (toLE n v).length = n := by
  simp [toLE]

theorem Hasher.append_buf (h : Hasher) (bs : List Nat) : (h.append bs).buf = h.buf ++ bs := rfl

theorem Hasher.fillUpTo32_buf (h : Hasher) :
    h.fillUpTo32.buf = h.buf ++ List.replicate ((32 - h.buf.length % 32) % 32) 0 := rfl

theorem Hasher.fillUpTo32_aligned (h : Hasher) : 32 ∣ h.fillUpTo32.buf.length := by
  rw [Hasher.fillUpTo32_buf]
  simp only [List.length_append, List.length_replicate]
  omega

theorem Hasher.fillUpTo32_of_aligned (h : Hasher) (hd : 32 ∣ h.buf.length) :
    h.fillUpTo32 = h := by
  have h0 : (32 - h.buf.length % 32) % 32 = 0 := by omega
  unfold Hasher.fillUpTo32
  rw [h0]
  simp

/-- Appending up to one chunk's worth of (at least one) bytes to an
aligned buffer and padding yields exactly one new chunk. -/
theorem append_fill_chunk (h : Hasher) (bs : List Nat) (hd : 32 ∣ h.buf.length)
    (h1 : 0 < bs.length) (h2 : bs.length ≤ 32) :
    ∃ c, c.length = 32 ∧ ((h.append bs).fillUpTo32).buf = h.buf ++ c := by
  refine ⟨bs ++ List.replicate ((32 - (h.buf.length + bs.length) % 32) % 32) 0, ?_, ?_⟩
  · simp only [List.length_append, List.length_replicate]
    omega
  · rw [Hasher.fillUpTo32_buf, Hasher.append_buf]
    simp [List.append_assoc]

theorem Hasher.appendBytes32_buf (h : Hasher) (bs : List Nat) :
    (h.appendBytes32 bs).buf =
      h.buf ++ (bs ++ List.replicate ((32 - (h.buf.length + bs.length) % 32) % 32) 0) := by
  show ((h.append bs).fillUpTo32).buf = _
  rw [Hasher.fillUpTo32_buf, Hasher.append_buf]
  simp [List.append_assoc]

theorem Hasher.appendBytes32_aligned (h : Hasher) (bs : List Nat) :
    32 ∣ (h.appendBytes32 bs).buf.length :=
  (h.append bs).fillUpTo32_aligned

/-- `merkleize` at an index that marks a prefix of the buffer replaces
everything after the prefix by one 32-byte root. -/
theorem merkleize_spec (h : Hasher) (entry rest : List Nat) (hb : h.buf = entry ++ rest) :
    ∃ r, r.length = 32 ∧ (h.merkleize entry.length).buf = entry ++ r := by
  refine ⟨digest32 1 (h.fillUpTo32.buf.drop entry.length), digest32_length _ _, ?_⟩
  show h.fillUpTo32.buf.take entry.length ++ _ = _
  rw [Hasher.fillUpTo32_buf, hb, List.append_assoc, List.take_left]

/-- `merkleizeWithMixin` at an index that marks a prefix of the buffer
replaces everything after the prefix by one 32-byte root. -/
theorem merkleizeWithMixin_spec (h : Hasher) (entry rest : List Nat) (num limit : Nat)
    (hb : h.buf = entry ++ rest) :
    ∃ r, r.length = 32 ∧ (h.merkleizeWithMixin entry.length num limit).buf = entry ++ r := by
  refine ⟨digest32 2 (h.fillUpTo32.buf.drop entry.length ++ toLE 8 num ++ toLE 8 limit),
    digest32_length _ _, ?_⟩
  show h.fillUpTo32.buf.take entry.length ++ _ = _
  rw [Hasher.fillUpTo32_buf, hb, List.append_assoc, List.take_left]

theorem Hasher.putBitlist_buf (h : Hasher) (bs : List Nat) (maxSize : Nat) :
    (h.putBitlist bs maxSize).buf = h.buf ++ digest32 3 (bs ++ toLE 8 maxSize) := rfl

/-- `putBytes` on an aligned buffer appends exactly one chunk, except for
the empty byte string, where it appends nothing. -/
theorem putBytes_spec (h : Hasher) (bs : List Nat) (hd : 32 ∣ h.buf.length) :
    ∃ c, (h.putBytes bs).buf = h.buf ++ c ∧ (c.length = 32 ∨ (c = [] ∧ bs = [])) := by
  unfold Hasher.putBytes
  by_cases hle : bs.length ≤ 32
  · simp only [hle, if_true]
    rcases bs with _ | ⟨b, bs'⟩
    · refine ⟨[], ?_, Or.inr ⟨rfl, rfl⟩⟩
      show ((h.append []).fillUpTo32).buf = h.buf ++ []
      have : h.append [] = h := by obtain ⟨b⟩ := h; simp [Hasher.append]
      rw [this, Hasher.fillUpTo32_of_aligned h hd]
      simp
    · obtain ⟨c, hc32, hcbuf⟩ := append_fill_chunk h (b :: bs') hd (by simp) hle
      exact ⟨c, hcbuf, Or.inl hc32⟩
  · simp only [hle, if_false]
    have hb : (h.appendBytes32 bs).buf =
        h.buf ++ (bs ++ List.replicate ((32 - (h.buf.length + bs.length) % 32) % 32) 0) :=
      h.appendBytes32_buf bs
    obtain ⟨r, hr32, hrbuf⟩ := merkleize_spec (h.appendBytes32 bs) h.buf _ hb
    exact ⟨r, hrbuf, Or.inl hr32⟩

/-- Scalar puts on an aligned buffer append exactly one chunk. -/
theorem put_scalar_chunk (h : Hasher) (bs : List Nat) (hd : 32 ∣ h.buf.length)
    (h1 : 0 < bs.length) (h2 : bs.length ≤ 32) :
    ∃ c, c.length = 32 ∧ ((h.append bs).fillUpTo32).buf = h.buf ++ c :=
  append_fill_chunk h bs hd h1 h2

/-! ## Loop lemmas -/

/-- If every successful step extends the buffer by whole chunks when
started aligned, so does the whole loop. -/
theorem runFieldLoop_extends_aligned (step : Nat → Hasher → BRes)
    (H : ∀ i hh hh', 32 ∣ hh.buf.length → step i hh = (none, hh') →
      ∃ c, 32 ∣ c.length ∧ hh'.buf = hh.buf ++ c) :
    ∀ count i hh hh', 32 ∣ hh.buf.length → runFieldLoop step i count hh = (none, hh') →
      ∃ c, 32 ∣ c.length ∧ hh'.buf = hh.buf ++ c := by
  intro count
  induction count with
  | zero =>
    intro i hh hh' hd hrun
    simp only [runFieldLoop] at hrun
    injection hrun with h1 h2
    exact ⟨[], by simp, by rw [← h2]; simp⟩
  | succ n ih =>
    intro i hh hh' hd hrun
    simp only [runFieldLoop] at hrun
    rcases hstep : step i hh with ⟨o, hmid⟩
    rw [hstep] at hrun
    cases o with
    | some e => simp at hrun
    | none =>
      simp only at hrun
      obtain ⟨c1, hc1, hb1⟩ := H i hh hmid hd hstep
      obtain ⟨c2, hc2, hb2⟩ := ih (i + 1) hmid hh'
        (by rw [hb1]; simp only [List.length_append]; omega) hrun
      exact ⟨c1 ++ c2, by simp only [List.length_append]; omega,
        by rw [hb2, hb1, List.append_assoc]⟩

/-- Every successful loop run only extends the buffer (no alignment
needed) provided each successful step does. -/
theorem runFieldLoop_extends (step : Nat → Hasher → BRes)
    (H : ∀ i hh hh', step i hh = (none, hh') → ∃ c, hh'.buf = hh.buf ++ c) :
    ∀ count i hh hh', runFieldLoop step i count hh = (none, hh') →
      ∃ c, hh'.buf = hh.buf ++ c := by
  intro count
  induction count with
  | zero =>
    intro i hh hh' hrun
    simp only [runFieldLoop] at hrun
    injection hrun with h1 h2
    exact ⟨[], by rw [← h2]; simp⟩
  | succ n ih =>
    intro i hh hh' hrun
    simp only [runFieldLoop] at hrun
    rcases hstep : step i hh with ⟨o, hmid⟩
    rw [hstep] at hrun
    cases o with
    | some e => simp at hrun
    | none =>
      simp only at hrun
      obtain ⟨c1, hb1⟩ := H i hh hmid hstep
      obtain ⟨c2, hb2⟩ := ih (i + 1) hmid hh' hrun
      exact ⟨c1 ++ c2, by rw [hb2, hb1, List.append_assoc]⟩

/-! ## Evaluation helpers -/

theorem derefTV_of_not_ptr (t : GoType) (v : GoValue) (hp : t.isPtr = false) :
    derefTV t v = (t, v) := by
  cases t <;> first
    | rfl
    | (exfalso; simp [GoType.isPtr] at hp)

theorem drop_eq_cons_getD {α : Type _} (d0 : α) :
    ∀ (l : List α) (i : Nat) (x : α) (xs : List α), l.drop i = x :: xs →
      l.getD i d0 = x ∧ l.drop (i + 1) = xs := by
  intro l
  induction l with
  | nil =>
    intro i x xs h
    simp at h
  | cons y l' ih =>
    intro i x xs h
    cases i with
    | zero =>
      simp only [List.drop_zero] at h
      cases h
      exact ⟨rfl, by simp⟩
    | succ i' =>
      simp only [List.drop_succ_cons] at h
      obtain ⟨h1, h2⟩ := ih i' x xs h
      exact ⟨by simpa using h1, by simpa using h2⟩

/-- The uint64 packing loop evaluates to one dense append. -/
theorem uint64_loop_eval (es : List GoValue) :
    ∀ (ns : List Nat) (i : Nat) (hh : Hasher), es.drop i = ns.map GoValue.uintV →
      runFieldLoop (uint64ElemStep (.seqV es) false) i ns.length hh
        = (none, hh.append (packUint64s ns)) := by
  intro ns
  induction ns with
  | nil =>
    intro i hh h
    simp [runFieldLoop, packUint64s, Hasher.append]
  | cons n ns' ih =>
    intro i hh h
    obtain ⟨h1, h2⟩ := drop_eq_cons_getD GoValue.invalid es i _ _ h
    have h1' := h1
    rw [List.getD_eq_getElem?_getD] at h1'
    simp only [List.length_cons, runFieldLoop]
    have hstep : uint64ElemStep (.seqV es) false i hh = (none, hh.appendUint64 n) := by
      simp [uint64ElemStep, GoValue.indexAt, h1, h1', GoValue.uintE]
    rw [hstep]
    simp only []
    rw [ih (i + 1) (hh.appendUint64 n) h2]
    simp [Hasher.appendUint64, Hasher.append, packUint64s, List.append_assoc]

/-- The nested byte-sequence loop evaluates to the claimed per-element
fold. -/
theorem byteSeq_loop_eval (es : List GoValue) (mh : List SszMaxSizeHint) :
    ∀ (bss : List (List Nat)) (i : Nat) (hh : Hasher), es.drop i = bss.map GoValue.bytesV →
      runFieldLoop (byteSeqElemStep (.seqV es) false mh) i bss.length hh
        = (none, nestedByteFold mh bss hh) := by
  intro bss
  induction bss with
  | nil =>
    intro i hh h
    simp [runFieldLoop, nestedByteFold]
  | cons bs rest ih =>
    intro i hh h
    obtain ⟨h1, h2⟩ := drop_eq_cons_getD GoValue.invalid es i _ _ h
    have h1' := h1
    rw [List.getD_eq_getElem?_getD] at h1'
    simp only [List.length_cons, runFieldLoop]
    have hstep : byteSeqElemStep (.seqV es) false mh i hh = (none, nestedByteOne mh bs hh) := by
      simp only [byteSeqElemStep, GoValue.indexAt, h1, GoValue.bytesE]
      rcases mh with _ | ⟨m0, _ | ⟨m1, mr⟩⟩ <;> rfl
    rw [hstep]
    simp only []
    rw [ih (i + 1) _ h2]
    simp only [nestedByteFold]

/-! ## The one-chunk invariant -/

/-- One-chunk property of `buildRootFromType` at a given fuel: a
successful call from a chunk-aligned buffer appends exactly one 32-byte
chunk, or (zero-length fixed byte array) nothing. -/
def TypeChunkProp (d : DynSsz) (fuel : Nat) : Prop :=
  ∀ t v hh sh mh hh', 32 ∣ hh.buf.length →
    buildRootFromType d fuel t v hh sh mh = (none, hh') →
    (∃ c, c.length = 32 ∧ hh'.buf = hh.buf ++ c) ∨
      (hh'.buf = hh.buf ∧ (derefTV t v).2.bytesE = Except.ok [])

/-- One-chunk property of `buildRootFromStruct`: a successful call from a
chunk-aligned buffer appends exactly one 32-byte chunk. -/
def StructChunkProp (d : DynSsz) (fuel : Nat) : Prop :=
  ∀ t v hh hh', 32 ∣ hh.buf.length →
    buildRootFromStruct d fuel t v hh = (none, hh') →
    ∃ c, c.length = 32 ∧ hh'.buf = hh.buf ++ c

/-- One-chunk property of `buildRootFromSlice`: a successful call from a
chunk-aligned buffer appends exactly one 32-byte chunk, or nothing, the
latter only on the fixed-array early return. -/
def SliceChunkProp (d : DynSsz) (fuel : Nat) : Prop :=
  ∀ t v hh mh ia hh', 32 ∣ hh.buf.length →
    buildRootFromSlice d fuel t v hh mh ia = (none, hh') →
    (∃ c, c.length = 32 ∧ hh'.buf = hh.buf ++ c) ∨
      (hh'.buf = hh.buf ∧ ia = true ∧ v.bytesE = Except.ok [])

theorem structFieldStep_chunk (d : DynSsz)
    (rec : GoType → GoValue → Hasher → List SszSizeHint → List SszMaxSizeHint → BRes)
    (Hrec : ∀ t v hh sh mh hh', 32 ∣ hh.buf.length → rec t v hh sh mh = (none, hh') →
      (∃ c, c.length = 32 ∧ hh'.buf = hh.buf ++ c) ∨
        (hh'.buf = hh.buf ∧ (derefTV t v).2.bytesE = Except.ok []))
    (fields : List GoField) (sv : GoValue) :
    ∀ i hh hh', 32 ∣ hh.buf.length → structFieldStep d rec fields sv i hh = (none, hh') →
      ∃ c, 32 ∣ c.length ∧ hh'.buf = hh.buf ++ c := by
  intro i hh hh' hd hstep
  simp only [structFieldStep] at hstep
  split at hstep
  · simp at hstep
  · split at hstep
    · simp at hstep
    · rcases Hrec _ _ _ _ _ _ hd hstep with ⟨c, hc, hb⟩ | ⟨hb, -⟩
      · exact ⟨c, by omega, hb⟩
      · exact ⟨[], by simp, by simp [hb]⟩

theorem structElemStep_chunk (rec2 : GoValue → Hasher → BRes)
    (Hrec2 : ∀ v hh hh', 32 ∣ hh.buf.length → rec2 v hh = (none, hh') →
      ∃ c, c.length = 32 ∧ hh'.buf = hh.buf ++ c)
    (sv : GoValue) (fp : Bool) :
    ∀ i hh hh', 32 ∣ hh.buf.length → structElemStep rec2 sv fp i hh = (none, hh') →
      ∃ c, 32 ∣ c.length ∧ hh'.buf = hh.buf ++ c := by
  intro i hh hh' hd hstep
  simp only [structElemStep] at hstep
  obtain ⟨c, hc, hb⟩ := Hrec2 _ _ _ hd hstep
  exact ⟨c, by omega, hb⟩

theorem byteSeqElemStep_chunk (sv : GoValue) (fp : Bool) (mh : List SszMaxSizeHint) :
    ∀ i hh hh', 32 ∣ hh.buf.length → byteSeqElemStep sv fp mh i hh = (none, hh') →
      ∃ c, 32 ∣ c.length ∧ hh'.buf = hh.buf ++ c := by
  intro i hh hh' hd hstep
  simp only [byteSeqElemStep] at hstep
  split at hstep
  · simp at hstep
  next fieldBytes heqb =>
    split at hstep
    next mh0 mh1 rest =>
      injection hstep with h1 h2
      obtain ⟨r, hr, hb⟩ := merkleizeWithMixin_spec (hh.appendBytes32 fieldBytes) hh.buf _
        fieldBytes.length ((mh1.size + 31) / 32) (hh.appendBytes32_buf fieldBytes)
      exact ⟨r, by omega, by rw [← h2]; exact hb⟩
    next hnot =>
      injection hstep with h1 h2
      obtain ⟨c, hb, hc⟩ := putBytes_spec hh fieldBytes hd
      refine ⟨c, ?_, by rw [← h2]; exact hb⟩
      rcases hc with hc | ⟨hc, -⟩
      · omega
      · simp [hc]

theorem uint64ElemStep_extends (sv : GoValue) (fp : Bool) :
    ∀ i hh hh', uint64ElemStep sv fp i hh = (none, hh') → ∃ c, hh'.buf = hh.buf ++ c := by
  intro i hh hh' hstep
  simp only [uint64ElemStep] at hstep
  split at hstep
  · simp at hstep
  · injection hstep with h1 h2
    exact ⟨toLE 8 _, by rw [← h2]; rfl⟩

/-- The struct builder at fuel `n + 1` satisfies the one-chunk property
if the type builder does at fuel `n`. -/
theorem struct_chunk_step (d : DynSsz) (fuel : Nat) (IHt : TypeChunkProp d fuel) :
    StructChunkProp d (fuel + 1) := by
  intro t v hh hh' hd hrun
  simp only [buildRootFromStruct] at hrun
  split at hrun
  · rename_i nm fields heqt
    split at hrun
    · simp at hrun
    · rename_i hh1 heq
      injection hrun with h1 h2
      obtain ⟨C, hC, hB⟩ := runFieldLoop_extends_aligned _
        (structFieldStep_chunk d _ (fun t v hh sh mh hh' => IHt t v hh sh mh hh') fields _)
        fields.length 0 hh hh1 hd heq
      obtain ⟨r, hr, hbuf⟩ := merkleize_spec hh1 hh.buf C hB
      exact ⟨r, hr, by rw [← h2]; exact hbuf⟩
  · simp at hrun

/-- The slice builder at fuel `n + 1` satisfies the one-chunk property if
the struct builder does at fuel `n`. -/
theorem slice_chunk_step (d : DynSsz) (fuel : Nat) (IHs : StructChunkProp d fuel) :
    SliceChunkProp d (fuel + 1) := by
  intro t v hh mh ia hh' hd hrun
  simp only [buildRootFromSlice] at hrun
  split at hrun
  · simp at hrun
  · rename_i ft0 heq0
    split at hrun
    · simp at hrun
    · rename_i sliceLen heqLen
      split at hrun
      -- the element switch produced .failed
      · simp at hrun
      -- the element switch produced .done: only the fixed byte-array
      -- early return does that
      · rename_i hh1 hstep
        injection hrun with h1 h2
        split at hstep
        · split at hstep <;> simp at hstep
        · split at hstep
          · split at hstep <;> simp at hstep
          · simp at hstep
        · split at hstep
          · split at hstep <;> simp at hstep
          · simp at hstep
        · split at hstep
          · simp at hstep
          · rename_i bs heqbs
            split at hstep
            · rename_i hia
              injection hstep with h3
              obtain ⟨c, hb, hc⟩ := putBytes_spec hh bs hd
              rcases hc with hc | ⟨hc, hbs⟩
              · exact Or.inl ⟨c, hc, by rw [← h2, ← h3]; exact hb⟩
              · refine Or.inr ⟨?_, hia, hbs ▸ heqbs⟩
                rw [← h2, ← h3, hb, hc]
                simp
            · simp at hstep
        · split at hstep <;> simp at hstep
        · simp at hstep
      -- the element switch fell through to the finalization
      · rename_i hh1 itemSize hstep
        have fin : ∀ C : List Nat, hh1.buf = hh.buf ++ C →
            (∃ c, c.length = 32 ∧ hh'.buf = hh.buf ++ c) ∨
              (hh'.buf = hh.buf ∧ ia = true ∧ v.bytesE = Except.ok []) := by
          intro C hB
          split at hrun
          · injection hrun with h1 h2
            obtain ⟨r, hr, hbuf⟩ := merkleizeWithMixin_spec hh1 hh.buf C _ _ hB
            exact Or.inl ⟨r, hr, by rw [← h2]; exact hbuf⟩
          · injection hrun with h1 h2
            obtain ⟨r, hr, hbuf⟩ := merkleize_spec hh1 hh.buf C hB
            exact Or.inl ⟨r, hr, by rw [← h2]; exact hbuf⟩
        split at hstep
        -- struct elements
        · split at hstep
          · simp at hstep
          · rename_i hh2 heqloop
            injection hstep with h3 h4
            obtain ⟨C, hC, hB⟩ := runFieldLoop_extends_aligned _
              (structElemStep_chunk _ (fun v hh hh' hd0 hq => IHs _ v hh hh' hd0 hq) _ _)
              sliceLen 0 hh hh2 hd heqloop
            exact fin C (by rw [← h3]; exact hB)
        -- nested byte sequences
        · split at hstep
          · split at hstep
            · simp at hstep
            · rename_i hh2 heqloop
              injection hstep with h3 h4
              obtain ⟨C, hC, hB⟩ := runFieldLoop_extends_aligned _
                (byteSeqElemStep_chunk _ _ _) sliceLen 0 hh hh2 hd heqloop
              exact fin C (by rw [← h3]; exact hB)
          · simp at hstep
        · split at hstep
          · split at hstep
            · simp at hstep
            · rename_i hh2 heqloop
              injection hstep with h3 h4
              obtain ⟨C, hC, hB⟩ := runFieldLoop_extends_aligned _
                (byteSeqElemStep_chunk _ _ _) sliceLen 0 hh hh2 hd heqloop
              exact fin C (by rw [← h3]; exact hB)
          · simp at hstep
        -- packed byte list (dynamic)
        · split at hstep
          · simp at hstep
          · rename_i bs heqbs
            split at hstep
            · simp at hstep
            · injection hstep with h3 h4
              exact fin _ (by rw [← h3]; exact hh.appendBytes32_buf bs)
        -- packed uint64 list
        · split at hstep
          · simp at hstep
          · rename_i hh2 heqloop
            injection hstep with h3 h4
            obtain ⟨C, hB⟩ := runFieldLoop_extends _
              (uint64ElemStep_extends _ _) sliceLen 0 hh hh2 heqloop
            exact fin C (by rw [← h3]; exact hB)
        -- fall-through kinds: no chunks produced
        · injection hstep with h3 h4
          exact fin [] (by rw [← h3]; simp)

/-- The type builder at fuel `n + 1` satisfies the one-chunk property if
the struct and slice builders do at fuel `n`. -/
theorem type_chunk_step (d : DynSsz) (fuel : Nat) (IHs : StructChunkProp d fuel)
    (IHsl : SliceChunkProp d fuel) : TypeChunkProp d (fuel + 1) := by
  intro t v hh sh mh hh' hd hrun
  simp only [buildRootFromType] at hrun
  split at hrun
  · simp at hrun
  · rename_i compat heqc
    split at hrun
    -- fast path: the precompiled 32-byte root is put as one chunk
    · rename_i hashBytes heqcap
      injection hrun with h1 h2
      obtain ⟨c, hb, hc⟩ := putBytes_spec hh hashBytes.val hd
      rcases hc with hc | ⟨hc, hbs⟩
      · exact Or.inl ⟨c, hc, by rw [← h2]; exact hb⟩
      · exfalso
        have h32 := hashBytes.property
        rw [hbs] at h32
        simp at h32
    · simp at hrun
    -- generic path
    · split at hrun
      -- bitlist rule
      · split at hrun
        · simp at hrun
        · rename_i bytes heqb
          injection hrun with h1 h2
          exact Or.inl ⟨_, digest32_length _ _, by rw [← h2]; exact hh.putBitlist_buf _ _⟩
      -- kind dispatch
      · split at hrun
        · obtain ⟨c, hc, hb⟩ := IHs _ _ _ _ hd hrun
          exact Or.inl ⟨c, hc, hb⟩
        · rcases IHsl _ _ _ _ _ _ hd hrun with ⟨c, hc, hb⟩ | ⟨hb, -, hbs⟩
          · exact Or.inl ⟨c, hc, hb⟩
          · exact Or.inr ⟨hb, hbs⟩
        · rcases IHsl _ _ _ _ _ _ hd hrun with ⟨c, hc, hb⟩ | ⟨hb, hfalse, -⟩
          · exact Or.inl ⟨c, hc, hb⟩
          · exact absurd hfalse (by simp)
        · split at hrun
          · simp at hrun
          · rename_i b heqbool
            injection hrun with h1 h2
            obtain ⟨c, hc, hb⟩ :=
              put_scalar_chunk hh [if b then 1 else 0] hd (by simp) (by simp)
            exact Or.inl ⟨c, hc, by rw [← h2]; exact hb⟩
        · split at hrun
          · simp at hrun
          · injection hrun with h1 h2
            obtain ⟨c, hc, hb⟩ :=
              put_scalar_chunk hh (toLE 1 _) hd (by simp [toLE_length]) (by simp [toLE_length])
            exact Or.inl ⟨c, hc, by rw [← h2]; exact hb⟩
        · split at hrun
          · simp at hrun
          · injection hrun with h1 h2
            obtain ⟨c, hc, hb⟩ :=
              put_scalar_chunk hh (toLE 2 _) hd (by simp [toLE_length]) (by simp [toLE_length])
            exact Or.inl ⟨c, hc, by rw [← h2]; exact hb⟩
        · split at hrun
          · simp at hrun
          · injection hrun with h1 h2
            obtain ⟨c, hc, hb⟩ :=
              put_scalar_chunk hh (toLE 4 _) hd (by simp [toLE_length]) (by simp [toLE_length])
            exact Or.inl ⟨c, hc, by rw [← h2]; exact hb⟩
        · split at hrun
          · simp at hrun
          · injection hrun with h1 h2
            obtain ⟨c, hc, hb⟩ :=
              put_scalar_chunk hh (toLE 8 _) hd (by simp [toLE_length]) (by simp [toLE_length])
            exact Or.inl ⟨c, hc, by rw [← h2]; exact hb⟩
        · simp at hrun

/-- The one-chunk invariant, established for the three builders
simultaneously by induction on the fuel. -/
theorem chunk_invariant_master (d : DynSsz) :
    ∀ fuel, TypeChunkProp d fuel ∧ StructChunkProp d fuel ∧ SliceChunkProp d fuel := by
  intro fuel
  induction fuel with
  | zero =>
    refine ⟨?_, ?_, ?_⟩
    · intro t v hh sh mh hh' _ hrun
      simp only [buildRootFromType] at hrun
      simp at hrun
    · intro t v hh hh' _ hrun
      simp only [buildRootFromStruct] at hrun
      simp at hrun
    · intro t v hh mh ia hh' _ hrun
      simp only [buildRootFromSlice] at hrun
      simp at hrun
  | succ n ih =>
    exact ⟨type_chunk_step d n ih.2.1 ih.2.2, struct_chunk_step d n ih.1,
      slice_chunk_step d n ih.2.1⟩

/-! ## Claim theorems -/

set_option maxRecDepth 10000

/-- C6: for every fixed-size array of unsigned 8-bit elements,
`buildRootFromSlice` writes the packed, zero-padded byte chunks
(`putBytes`) and returns immediately, with no outer merkleize or mixin
step; the result does not depend on the max-size hints at all (they are
universally quantified and absent from the right-hand side), so changing
the declared maximum cannot change the root. -/
theorem fixed_byte_array_packed_no_mixin (d : DynSsz) (fuel : Nat) (nm enm : String)
    (L : Nat) (bs : List Nat) (hh : Hasher) (mh : List SszMaxSizeHint) :
    buildRootFromSlice d (fuel + 1) (.array nm L (.uint8T enm)) (.bytesV bs) hh mh true
      = (none, hh.putBytes bs) := rfl

/-- C8: on the generic path (the oracle reports no precompiled routine),
a value whose dereferenced type name contains "Bitlist" is hashed by the
bitlist rule: the byte-packed bitstring is written with merkleization
bound `maxSizeHints[0]` when a max-size hint is present and `8 × byte
length` when none is; the absence of a hint is not an error (the call
succeeds). -/
theorem bitlist_rule (d : DynSsz) (fuel : Nat) (t : GoType) (v : GoValue) (hh : Hasher)
    (sh : List SszSizeHint) (mh : List SszMaxSizeHint) (c : FastsszCompat) (bs : List Nat)
    (hc : d.getFastsszHashCompatibility (derefTV t v).1 sh mh = .ok c)
    (hroot : c.isHashRoot = false)
    (hbl : stringContains (derefTV t v).1.name "Bitlist" = true)
    (hbs : (derefTV t v).2.bytesE = .ok bs) :
    buildRootFromType d (fuel + 1) t v hh sh mh =
      (none, hh.putBitlist bs (bitlistMaxBits mh bs)) := by
  simp [buildRootFromType, hc, hroot, hbl, hbs, bitlistMaxBits]

/-- C9: on the generic path (oracle reports no precompiled routine, name
is not bitlist-like), a value whose dereferenced type kind is none of
struct, array, slice, bool or uint8/16/32/64 makes `buildRootFromType`
return the fatal unknown-type error immediately, with the buffer
unchanged (no chunk appended by the call). -/
theorem unsupported_kind_fatal (d : DynSsz) (fuel : Nat) (t : GoType) (v : GoValue)
    (hh : Hasher) (sh : List SszSizeHint) (mh : List SszMaxSizeHint) (c : FastsszCompat)
    (hc : d.getFastsszHashCompatibility (derefTV t v).1 sh mh = .ok c)
    (hroot : c.isHashRoot = false)
    (hbl : stringContains (derefTV t v).1.name "Bitlist" = false)
    (hk : kindHasHashRule (derefTV t v).1 = false) :
    buildRootFromType d (fuel + 1) t v hh sh mh
      = (some (.unknownType (derefTV t v).1.name), hh) := by
  simp only [buildRootFromType, hc, hroot, hbl]
  simp only [Bool.and_false, Bool.false_and, Bool.and_self, Bool.not_false, if_false,
    Bool.false_eq_true, ite_false]
  split <;> simp_all [kindHasHashRule]

/-- C10: the bitlist check is a substring match on the type name
evaluated before the kind switch.  For two non-pointer types with
bitlist-like names, on the generic path the result does not depend on the
kind at all (first conjunct: the results coincide for any two kinds), and
equals the bitlist treatment of the value read as a byte slice; a value
with no byte-slice representation produces the propagated reflection
panic — there is no dedicated error branch (second conjunct). -/
theorem bitlist_name_overrides_kind (d : DynSsz) (fuel : Nat) (t1 t2 : GoType) (v : GoValue)
    (hh : Hasher) (sh : List SszSizeHint) (mh : List SszMaxSizeHint) (c1 c2 : FastsszCompat)
    (hp1 : t1.isPtr = false) (hp2 : t2.isPtr = false)
    (hc1 : d.getFastsszHashCompatibility t1 sh mh = .ok c1) (hr1 : c1.isHashRoot = false)
    (hc2 : d.getFastsszHashCompatibility t2 sh mh = .ok c2) (hr2 : c2.isHashRoot = false)
    (hb1 : stringContains t1.name "Bitlist" = true)
    (hb2 : stringContains t2.name "Bitlist" = true) :
    buildRootFromType d (fuel + 1) t1 v hh sh mh = buildRootFromType d (fuel + 1) t2 v hh sh mh ∧
    buildRootFromType d (fuel + 1) t1 v hh sh mh = bitlistOutcome v hh mh := by
  have key : ∀ (t : GoType) (c : FastsszCompat), t.isPtr = false →
      d.getFastsszHashCompatibility t sh mh = .ok c → c.isHashRoot = false →
      stringContains t.name "Bitlist" = true →
      buildRootFromType d (fuel + 1) t v hh sh mh = bitlistOutcome v hh mh := by
    intro t c hp hc hr hb
    have hder := derefTV_of_not_ptr t v hp
    simp [buildRootFromType, hder, hc, hr, hb, bitlistOutcome, bitlistMaxBits]
  exact ⟨(key t1 c1 hp1 hc1 hr1 hb1).trans (key t2 c2 hp2 hc2 hr2 hb2).symm,
    key t1 c1 hp1 hc1 hr1 hb1⟩

/-- C3 counterexample: a type named "Int" for which the oracle's verdict
conditions fail (`isHashRoot = false`) takes the generic path — the call
succeeds with the generic packed-uint64 root, which differs from the root
the always-available precompiled capability would have written.  The
claim's "regardless of the oracle's verdict conditions" is thus false:
the hack on treeroot.go line 29 requires the verdict conditions. -/
theorem int_hack_not_regardless_of_verdict :
    (buildRootFromType dCapNoVerdict 2 (.array "Int" 4 (.uint64T "uint64"))
        (.seqV [.uintV 1, .uintV 2, .uintV 3, .uintV 4]) hasher0 [] [])
      ≠ (none, hasher0.putBytes zeroRoot32.val) ∧
    (buildRootFromType dCapNoVerdict 2 (.array "Int" 4 (.uint64T "uint64"))
        (.seqV [.uintV 1, .uintV 2, .uintV 3, .uintV 4]) hasher0 [] []).1 = none := by
  exact ⟨by decide, by decide⟩

/-- C3 (amended): for a type named "Int" whose verdict satisfies the
oracle conditions (`isHashRoot` and no overridden sizes), `useFastSsz` is
forced on regardless of the global disable switch (`noFastSsz` is
universally quantified here): the precompiled capability is invoked and
its outcome decides the call. -/
theorem int_type_forces_fast_path (d : DynSsz) (fuel : Nat) (t : GoType) (v : GoValue)
    (hh : Hasher) (sh : List SszSizeHint) (mh : List SszMaxSizeHint) (c : FastsszCompat)
    (r : Except String { bs : List Nat // bs.length = 32 })
    (hp : t.isPtr = false) (hname : t.name = "Int")
    (hc : d.getFastsszHashCompatibility t sh mh = .ok c)
    (hroot : c.isHashRoot = true) (hds : c.hasDynamicSpecSizes = false)
    (hdm : c.hasDynamicSpecMax = false)
    (hcap : d.hashRootCap t v = some r) :
    buildRootFromType d (fuel + 1) t v hh sh mh =
      (match r with
       | .ok hashBytes => (none, hh.putBytes hashBytes.val)
       | .error e => (some (.hashRootFailed e), hh)) := by
  have hder : derefTV t v = (t, v) := derefTV_of_not_ptr t v hp
  cases hn : d.noFastSsz <;> rcases r with e | hb <;>
    simp [buildRootFromType, hder, hc, hroot, hds, hdm, hname, hcap, hn]

/-- C4 counterexample: dereferencing a nil pointer does not produce a
NilValue error; the traversal continues on the zero value and fails with
a reflection panic (here: reading a uint from the zero value). -/
theorem nil_pointer_panics_not_nilvalue :
    buildRootFromType dGeneric 1 (.ptr (.uint8T "uint8")) (.ptrV none) hasher0 [] []
      = (some (.panicked "reflect: call of reflect.Value.Uint on zero Value"), hasher0) ∧
    Err.panicked "reflect: call of reflect.Value.Uint on zero Value" ≠ Err.nilValue := by
  exact ⟨by decide, by decide⟩

/-- C4 (amended): the pointer wrapper is dereferenced to the underlying
type and value, but a null value is not detected at that point: the call
on a nil pointer proceeds exactly as the call on the underlying type with
the zero (invalid) dereferenced value, so any failure comes later, from
the reflection operation that first touches the value, not from a
NilValue check. -/
theorem nil_pointer_deref_continues (d : DynSsz) (fuel : Nat) (e : GoType) (hh : Hasher)
    (sh : List SszSizeHint) (mh : List SszMaxSizeHint) (hp : e.isPtr = false) :
    buildRootFromType d (fuel + 1) (.ptr e) (.ptrV none) hh sh mh
      = buildRootFromType d (fuel + 1) e .invalid hh sh mh := by
  have h1 : derefTV (.ptr e) (.ptrV none) = (e, .invalid) := rfl
  have h2 : derefTV e .invalid = (e, .invalid) := derefTV_of_not_ptr e .invalid hp
  simp only [buildRootFromType, h1, h2]

/-- C2 counterexample: a successful call that appends no chunk at all: a
fixed byte array of length zero.  The call returns without error and the
buffer is exactly as it was on entry (no 32-byte chunk was appended). -/
theorem zero_length_byte_array_appends_nothing :
    buildRootFromSlice dGeneric 1 (.array "A" 0 (.uint8T "uint8")) (.bytesV []) hasher0 [] true
      = (none, hasher0) ∧ hasher0.buf = [] := by
  exact ⟨by decide, rfl⟩

/-- C5 counterexample: a fixed byte array called with a max-size hint
present: the call succeeds via the early byte-array return (`putBytes`),
and the result differs from the length-mixin finalization the claim
prescribes for densely packed elements with a hint present
(`MerkleizeWithMixin` with length 2 and capacity `ceil(100*1/32)`). -/
theorem byte_array_skips_finalization :
    buildRootFromSlice dGeneric 1 (.array "A" 2 (.uint8T "uint8")) (.bytesV [7, 9]) hasher0
        [⟨100⟩] true
      = (none, hasher0.putBytes [7, 9]) ∧
    hasher0.putBytes [7, 9]
      ≠ ((hasher0.append [7, 9]).fillUpTo32).merkleizeWithMixin hasher0.index 2
          ((100 * 1 + 31) / 32) := by
  exact ⟨by decide, by decide⟩

/-- C7 counterexample: a slice of slices whose inner element type has
kind uint8 but is a named type (`MyByte`), hence not identical to the
byte type: the claim prescribes the packed per-element treatment for any
unsigned-8-bit inner kind, but the call fails with the fatal
UnsupportedNesting error. -/
theorem named_byte_type_rejected :
    buildRootFromSlice dGeneric 1 (.slice "S" (.slice "Inner" (.uint8T "MyByte")))
        (.seqV [.bytesV [1, 2]]) hasher0 [] false
      = (some (.unsupportedNesting "MyByte"), hasher0) := by
  decide

/-- C5 (amended): finalization of `buildRootFromSlice`, except for the
fixed byte-array early return (see the counterexample), which skips
finalization entirely.  (a) uint64 elements with a max-size hint finish
with a length mixin whose length operand is the element count and whose
chunk capacity is `ceil(maxSizeHints[0] * 8 / 32)` — visibly independent
of the runtime element count; (b) bytes of a dynamic list likewise with
element size 1; (c) composite (struct) elements use the hint value as
capacity unchanged; (d) with no max-size hint the call finishes with a
plain merkleize and no mixin. -/
theorem sequence_finalization (d : DynSsz) (fuel : Nat) :
    (∀ (nm enm : String) (ns : List Nat) (hh : Hasher) (mh0 : SszMaxSizeHint)
        (mrest : List SszMaxSizeHint) (ia : Bool),
      buildRootFromSlice d (fuel + 1) (.slice nm (.uint64T enm)) (.seqV (ns.map .uintV)) hh
          (mh0 :: mrest) ia
        = (none, (hh.append (packUint64s ns)).merkleizeWithMixin hh.index ns.length
            ((mh0.size * 8 + 31) / 32))) ∧
    (∀ (nm enm : String) (bs : List Nat) (hh : Hasher) (mh0 : SszMaxSizeHint)
        (mrest : List SszMaxSizeHint),
      buildRootFromSlice d (fuel + 1) (.slice nm (.uint8T enm)) (.bytesV bs) hh
          (mh0 :: mrest) false
        = (none, ((hh.append bs).fillUpTo32).merkleizeWithMixin hh.index bs.length
            ((mh0.size * 1 + 31) / 32))) ∧
    (∀ (nm sn : String) (sfs : List GoField) (v : GoValue) (L : Nat) (hh hh1 : Hasher)
        (mh0 : SszMaxSizeHint) (mrest : List SszMaxSizeHint) (ia : Bool),
      v.lenE = .ok L →
      runFieldLoop
          (structElemStep (fun w hw => buildRootFromStruct d fuel (.strct sn sfs) w hw) v false)
          0 L hh = (none, hh1) →
      buildRootFromSlice d (fuel + 1) (.slice nm (.strct sn sfs)) v hh (mh0 :: mrest) ia
        = (none, hh1.merkleizeWithMixin hh.index L mh0.size)) ∧
    (∀ (nm enm : String) (ns : List Nat) (hh : Hasher) (ia : Bool),
      buildRootFromSlice d (fuel + 1) (.slice nm (.uint64T enm)) (.seqV (ns.map .uintV)) hh [] ia
        = (none, (hh.append (packUint64s ns)).merkleize hh.index)) := by
  have hloop : ∀ (ns : List Nat) (hh : Hasher),
      runFieldLoop (uint64ElemStep (.seqV (ns.map GoValue.uintV)) false) 0 ns.length hh
        = (none, hh.append (packUint64s ns)) :=
    fun ns hh => uint64_loop_eval (ns.map .uintV) ns 0 hh (by simp)
  refine ⟨?_, ?_, ?_, ?_⟩
  · intro nm enm ns hh mh0 mrest ia
    simp [buildRootFromSlice, GoType.elemType?, GoType.stripPtr, GoType.isPtr, GoValue.lenE,
      hloop ns hh, calculateLimit]
  · intro nm enm bs hh mh0 mrest
    simp [buildRootFromSlice, GoType.elemType?, GoType.stripPtr, GoType.isPtr, GoValue.lenE,
      GoValue.bytesE, calculateLimit]
  · intro nm sn sfs v L hh hh1 mh0 mrest ia hlen hrun
    simp [buildRootFromSlice, GoType.elemType?, GoType.stripPtr, GoType.isPtr, hlen, hrun]
  · intro nm enm ns hh ia
    simp [buildRootFromSlice, GoType.elemType?, GoType.stripPtr, GoType.isPtr, GoValue.lenE,
      hloop ns hh]

/-- C7 (amended): for arrays/slices of nested byte sequences the inner
element type must be the byte type itself (exact type identity, not
merely kind uint8, see the counterexample): (a), (b) any other inner
slice/array element type is the fatal UnsupportedNesting error; (c) for
byte-type elements, each outer element is packed into whole chunks and
combined with a length mixin of capacity `ceil(maxSizeHints[1] / 32)`
and length operand the element's byte length when a second max-size-hint
dimension is present, and written as a fixed-width packed chunk run with
no mixin when it is not (`nestedByteOne`/`nestedByteFold`), before the
outer finalization. -/
theorem nested_byte_sequences (d : DynSsz) (fuel : Nat) :
    (∀ (t : GoType) (inm : String) (et : GoType) (v : GoValue) (hh : Hasher)
        (mh : List SszMaxSizeHint) (ia : Bool) (L : Nat),
      t.elemType? = some (.slice inm et) → et.isByteType = false → v.lenE = .ok L →
      buildRootFromSlice d (fuel + 1) t v hh mh ia
        = (some (.unsupportedNesting et.name), hh)) ∧
    (∀ (t : GoType) (inm : String) (k : Nat) (et : GoType) (v : GoValue) (hh : Hasher)
        (mh : List SszMaxSizeHint) (ia : Bool) (L : Nat),
      t.elemType? = some (.array inm k et) → et.isByteType = false → v.lenE = .ok L →
      buildRootFromSlice d (fuel + 1) t v hh mh ia
        = (some (.unsupportedNesting et.name), hh)) ∧
    (∀ (t : GoType) (inm : String) (bss : List (List Nat)) (hh : Hasher)
        (mh : List SszMaxSizeHint) (ia : Bool),
      t.elemType? = some (.slice inm (.uint8T "uint8")) →
      buildRootFromSlice d (fuel + 1) t (.seqV (bss.map .bytesV)) hh mh ia
        = (none, compositeFinalize mh hh.index bss.length (nestedByteFold mh bss hh))) := by
  refine ⟨?_, ?_, ?_⟩
  · intro t inm et v hh mh ia L ht hnb hlen
    simp [buildRootFromSlice, ht, GoType.stripPtr, GoType.isPtr, hlen, hnb]
  · intro t inm k et v hh mh ia L ht hnb hlen
    simp [buildRootFromSlice, ht, GoType.stripPtr, GoType.isPtr, hlen, hnb]
  · intro t inm bss hh mh ia ht
    have hloop : runFieldLoop (byteSeqElemStep (.seqV (bss.map GoValue.bytesV)) false mh) 0
        bss.length hh = (none, nestedByteFold mh bss hh) :=
      byteSeq_loop_eval (bss.map .bytesV) mh bss 0 hh (by simp)
    simp [buildRootFromSlice, ht, GoType.stripPtr, GoType.isPtr, GoValue.lenE, GoType.isByteType,
      hloop, compositeFinalize]
    rcases mh with _ | ⟨m0, mr⟩ <;> simp

/-- C2 (amended): every invocation of the three builders that returns
without error and starts from a chunk-aligned buffer appends exactly one
32-byte chunk relative to the index captured on entry, with a single
exception: the fixed byte-array early return on a zero-length byte value
appends nothing (see the counterexample); the struct builder always
appends exactly one chunk. -/
theorem single_chunk_invariant (d : DynSsz) (fuel : Nat) :
    (∀ t v hh sh mh hh', 32 ∣ hh.buf.length →
      buildRootFromType d fuel t v hh sh mh = (none, hh') →
      (∃ c, c.length = 32 ∧ hh'.buf = hh.buf ++ c) ∨
        (hh'.buf = hh.buf ∧ (derefTV t v).2.bytesE = Except.ok [])) ∧
    (∀ t v hh hh', 32 ∣ hh.buf.length →
      buildRootFromStruct d fuel t v hh = (none, hh') →
      ∃ c, c.length = 32 ∧ hh'.buf = hh.buf ++ c) ∧
    (∀ t v hh mh ia hh', 32 ∣ hh.buf.length →
      buildRootFromSlice d fuel t v hh mh ia = (none, hh') →
      (∃ c, c.length = 32 ∧ hh'.buf = hh.buf ++ c) ∨
        (hh'.buf = hh.buf ∧ ia = true ∧ v.bytesE = Except.ok [])) :=
  chunk_invariant_master d fuel

/-! ## Witnesses -/

/-- Witness for C2 at a concrete input: hashing a boolean from the empty
(aligned) buffer appends exactly one 32-byte chunk. -/
theorem single_chunk_invariant_witness :
    (32 ∣ hasher0.buf.length) ∧
    buildRootFromType dGeneric 1 (.boolT "bool") (.boolV true) hasher0 [] []
      = (none, ⟨(1 : Nat) :: List.replicate 31 0⟩) ∧
    ((∃ c, c.length = 32 ∧ ((1 : Nat) :: List.replicate 31 0) = hasher0.buf ++ c) ∨
      (((1 : Nat) :: List.replicate 31 0) = hasher0.buf ∧
        (derefTV (.boolT "bool") (.boolV true)).2.bytesE = Except.ok [])) :=
  ⟨by decide, by decide,
    (single_chunk_invariant dGeneric 1).1 (.boolT "bool") (.boolV true) hasher0 [] []
      ⟨(1 : Nat) :: List.replicate 31 0⟩ (by decide) (by decide)⟩

/-- Witness for C3 at a concrete input: with the global disable switch on
and a clean verdict, the "Int"-named type still takes the precompiled
capability. -/
theorem int_type_forces_fast_path_witness :
    ((GoType.array "Int" 4 (.uint64T "uint64")).isPtr = false) ∧
    ((GoType.array "Int" 4 (.uint64T "uint64")).name = "Int") ∧
    (dFastDisabled.getFastsszHashCompatibility (.array "Int" 4 (.uint64T "uint64")) [] []
      = .ok ⟨true, false, false⟩) ∧
    (dFastDisabled.hashRootCap (.array "Int" 4 (.uint64T "uint64")) (.seqV [])
      = some (.ok zeroRoot32)) ∧
    (dFastDisabled.noFastSsz = true) ∧
    buildRootFromType dFastDisabled 1 (.array "Int" 4 (.uint64T "uint64")) (.seqV [])
        hasher0 [] []
      = (none, hasher0.putBytes zeroRoot32.val) :=
  ⟨rfl, rfl, rfl, rfl, rfl,
    int_type_forces_fast_path dFastDisabled 0 (.array "Int" 4 (.uint64T "uint64")) (.seqV [])
      hasher0 [] [] ⟨true, false, false⟩ (.ok zeroRoot32) rfl rfl rfl rfl rfl rfl rfl⟩

/-- Witness for C4 at a concrete input: the call on a nil pointer to a
uint8 type proceeds exactly as the call on uint8 with the zero value. -/
theorem nil_pointer_deref_continues_witness :
    ((GoType.uint8T "uint8").isPtr = false) ∧
    buildRootFromType dGeneric 1 (.ptr (.uint8T "uint8")) (.ptrV none) hasher0 [] []
      = buildRootFromType dGeneric 1 (.uint8T "uint8") .invalid hasher0 [] [] :=
  ⟨rfl, nil_pointer_deref_continues dGeneric 0 (.uint8T "uint8") hasher0 [] [] rfl⟩

/-- Witness for C5 at a concrete input: an empty list of struct elements
with hint 5 finishes with a mixin of length 0 and capacity 5 (the hint
unchanged). -/
theorem sequence_finalization_witness :
    ((GoValue.seqV []).lenE = .ok 0) ∧
    (runFieldLoop
        (structElemStep (fun w hw => buildRootFromStruct dGeneric 0 (.strct "S" []) w hw)
          (.seqV []) false) 0 0 hasher0 = (none, hasher0)) ∧
    buildRootFromSlice dGeneric 1 (.slice "L" (.strct "S" [])) (.seqV []) hasher0
        [⟨5⟩] false
      = (none, hasher0.merkleizeWithMixin hasher0.index 0 (5 : Nat)) :=
  ⟨rfl, rfl,
    (sequence_finalization dGeneric 0).2.2.1 "L" "S" [] (.seqV []) 0 hasher0 hasher0 ⟨5⟩ []
      false rfl rfl⟩

/-- Witness for C7 at a concrete input: one nested byte element with two
hint dimensions gets the per-element mixin treatment and the outer
finalization. -/
theorem nested_byte_sequences_witness :
    ((GoType.slice "L" (.slice "" (.uint8T "uint8"))).elemType?
      = some (.slice "" (.uint8T "uint8"))) ∧
    buildRootFromSlice dGeneric 1 (.slice "L" (.slice "" (.uint8T "uint8")))
        (.seqV [GoValue.bytesV [1, 2]]) hasher0 [⟨10⟩, ⟨40⟩] false
      = (none, compositeFinalize [⟨10⟩, ⟨40⟩] hasher0.index 1
          (nestedByteFold [⟨10⟩, ⟨40⟩] [[1, 2]] hasher0)) :=
  ⟨rfl,
    (nested_byte_sequences dGeneric 0).2.2 (.slice "L" (.slice "" (.uint8T "uint8"))) ""
      [[1, 2]] hasher0 [⟨10⟩, ⟨40⟩] false rfl⟩

/-- Witness for C8 at the spec's scenario: the bitlist byte 0b00000101
with no max-size hint succeeds with bound 8 bits. -/
theorem bitlist_rule_witness :
    (dGeneric.getFastsszHashCompatibility
        (derefTV (.slice "Bitlist" (.uint8T "uint8")) (.bytesV [5])).1 [] []
      = .ok ⟨false, false, false⟩) ∧
    ((⟨false, false, false⟩ : FastsszCompat).isHashRoot = false) ∧
    (stringContains (derefTV (.slice "Bitlist" (.uint8T "uint8")) (.bytesV [5])).1.name
        "Bitlist" = true) ∧
    ((derefTV (.slice "Bitlist" (.uint8T "uint8")) (.bytesV [5])).2.bytesE = .ok [5]) ∧
    buildRootFromType dGeneric 1 (.slice "Bitlist" (.uint8T "uint8")) (.bytesV [5])
        hasher0 [] []
      = (none, hasher0.putBitlist [5] (bitlistMaxBits [] [5])) :=
  ⟨rfl, rfl, by decide, rfl,
    bitlist_rule dGeneric 0 (.slice "Bitlist" (.uint8T "uint8")) (.bytesV [5]) hasher0 [] []
      ⟨false, false, false⟩ [5] rfl rfl (by decide) rfl⟩

/-- Witness for C9 at the spec's scenario: a floating-point kind on the
generic path aborts with the unknown-type error and an unchanged
buffer. -/
theorem unsupported_kind_fatal_witness :
    (dGeneric.getFastsszHashCompatibility (derefTV (.float64T "F") (.uintV 1)).1 [] []
      = .ok ⟨false, false, false⟩) ∧
    (stringContains (derefTV (.float64T "F") (.uintV 1)).1.name "Bitlist" = false) ∧
    (kindHasHashRule (derefTV (.float64T "F") (.uintV 1)).1 = false) ∧
    buildRootFromType dGeneric 1 (.float64T "F") (.uintV 1) hasher0 [] []
      = (some (.unknownType "F"), hasher0) :=
  ⟨rfl, by decide, rfl,
    unsupported_kind_fatal dGeneric 0 (.float64T "F") (.uintV 1) hasher0 [] []
      ⟨false, false, false⟩ rfl rfl (by decide) rfl⟩

/-- Witness for C10 at a concrete input: a struct-kind type named
"MyBitlist" with a struct value behaves exactly like a float-kind type of
the same name — the kind dispatch is unreachable and the struct value
panics in the byte-slice read instead of taking the struct path. -/
theorem bitlist_name_overrides_kind_witness :
    ((GoType.strct "MyBitlist" []).isPtr = false) ∧
    ((GoType.float64T "MyBitlist").isPtr = false) ∧
    (dGeneric.getFastsszHashCompatibility (.strct "MyBitlist" []) [] []
      = .ok ⟨false, false, false⟩) ∧
    (dGeneric.getFastsszHashCompatibility (.float64T "MyBitlist") [] []
      = .ok ⟨false, false, false⟩) ∧
    (stringContains "MyBitlist" "Bitlist" = true) ∧
    (buildRootFromType dGeneric 1 (.strct "MyBitlist" []) (.structV []) hasher0 [] []
        = buildRootFromType dGeneric 1 (.float64T "MyBitlist") (.structV []) hasher0 [] [] ∧
      buildRootFromType dGeneric 1 (.strct "MyBitlist" []) (.structV []) hasher0 [] []
        = bitlistOutcome (.structV []) hasher0 []) :=
  ⟨rfl, rfl, rfl, rfl, by decide,
    bitlist_name_overrides_kind dGeneric 0 (.strct "MyBitlist" []) (.float64T "MyBitlist")
      (.structV []) hasher0 [] [] ⟨false, false, false⟩ ⟨false, false, false⟩ rfl rfl rfl rfl
      rfl rfl (by decide) (by decide)⟩

end DynSszProof
